import Mathlib

/-!
Verification of the Dilithium signature core in
`include/dilithium.hpp` (keygen / sign / verify).

The repository ships only `dilithium.hpp`; the subroutines it calls
(`field`, `ntt`, `polyvec`, `sampling`, `bit_packing`, `shake256`) live in
headers that are not part of the sources.  Those are modelled here: the
polynomial-vector operations and the bit packing are given concrete
definitions following the specification (each marked
`Modelled from the spec:`), while the SHAKE hashes, the seed expanders and
the NTT pair — which the specification treats as external collaborators or
describes only by their mapping — are abstracted as fields of an `Ext`
record, so every theorem holds for any conforming instantiation.

Bytes are `Nat` (values < 256 in any real run), polynomials are
`List Nat` of canonical `Z_q` representatives, and polynomial vectors are
`List Poly`.  The C++ fixes `N = 256` and checks the parameter tuple at
compile time; the model is length- and parameter-generic, which only makes
the proved statements stronger.
-/

namespace Dilithium

/-- The prime modulus `Q = 8380417 = 2^23 - 2^13 + 1` (from `field::Q`). -/
def Q : Nat := 8380417

/-- Fuelled worker for `bitWidth` (structural, so it reduces in the kernel). -/
def bitWidthAux : Nat → Nat → Nat
  | 0, _ => 0
  | fuel + 1, n => if n = 0 then 0 else bitWidthAux fuel (n / 2) + 1

/-- Model of `std::bit_width` of a `Nat`: number of bits needed, `bitWidth 0 = 0`. -/
def bitWidth (n : Nat) : Nat := bitWidthAux n n

/-- A polynomial: list of canonical representatives in `[0, Q)`. -/
abbrev Poly := List Nat

/-- A polynomial vector: list of polynomials. -/
abbrev PolyVec := List Poly

/-- Modelled from the spec (§4.1, `field::zq_t`): absolute value of the
signed representative `s(x) = x` if `x ≤ (Q-1)/2`, else `x - Q`. -/
def absSigned (x : Nat) : Nat := if x ≤ (Q - 1) / 2 then x else Q - x

/-- Modelled from the spec (§4.3, `polyvec::infinity_norm`): maximum of
`absSigned` over all coefficients of all polynomials. -/
def infinityNorm (v : PolyVec) : Nat :=
  v.foldl (fun acc p => p.foldl (fun a c => max a (absSigned c)) acc) 0

/-- Modelled from the spec (§4.3, `polyvec::count_1s`): total number of
coefficients equal to 1 (Hamming weight of a hint vector). -/
def count1s (v : PolyVec) : Nat :=
  v.foldl (fun acc p => acc + p.countP (fun c => c == 1)) 0

/-- Modelled from the spec (§4.3, `polyvec::sub_from_x`): replace every
coefficient `a` by `x - a` modulo `Q`. -/
def subFromX (x : Nat) (v : PolyVec) : PolyVec :=
  v.map (fun p => p.map (fun a => (x + Q - a % Q) % Q))

/-- Modelled from the spec (§4.3, `polyvec::add_to`): coefficient-wise sum
modulo `Q` of two polynomial vectors. -/
def addVec (a b : PolyVec) : PolyVec :=
  (a.zip b).map (fun pq => (pq.1.zip pq.2).map (fun cd => (cd.1 + cd.2) % Q))

/-- Modelled from the spec (§4.3, `polyvec::neg`): coefficient-wise
negation modulo `Q`. -/
def negVec (v : PolyVec) : PolyVec :=
  v.map (fun p => p.map (fun a => (Q - a % Q) % Q))

/-- Modelled from the spec (§4.3, `polyvec::shl`): multiply every
coefficient by `2^d` modulo `Q`. -/
def shlVec (d : Nat) (v : PolyVec) : PolyVec :=
  v.map (fun p => p.map (fun a => (a * 2 ^ d) % Q))

/-- Modelled from the spec (§4.3): pointwise product modulo `Q` of two
polynomials in NTT form. -/
def pointwiseMul (a b : Poly) : Poly :=
  (a.zip b).map (fun cd => (cd.1 * cd.2) % Q)

/-- Modelled from the spec (§4.3, `polyvec::mul_by_poly`): pointwise
multiply one NTT-form polynomial with every polynomial of a vector. -/
def mulByPoly (c : Poly) (v : PolyVec) : PolyVec :=
  v.map (fun p => pointwiseMul c p)

/-- Modelled from the spec (§4.3, `polyvec::matrix_multiply` with a
`k × l` matrix, flattened row-major, and an `l`-vector): row `i` of the
result is `Σ_j A[i·l + j] ∘ v[j]` accumulated pointwise modulo `Q`. -/
def matMul (k l : Nat) (A : PolyVec) (v : PolyVec) : PolyVec :=
  (List.range k).map (fun i =>
    (List.range l).foldl
      (fun acc j =>
        match A.get? (i * l + j), v.get? j with
        | some a, some b =>
            let prod := pointwiseMul a b
            if acc.isEmpty then prod
            else (acc.zip prod).map (fun cd => (cd.1 + cd.2) % Q)
        | _, _ => acc)
      [])

/-- Modelled from the spec (§4.3, `polyvec::power2round`): write each
coefficient `a = t1·2^d + t0` with `t0 ∈ (-2^(d-1), 2^(d-1)]`; returns
`(t1, t0)` with `t0` as a canonical `Z_q` representative. -/
def power2round (d : Nat) (t : PolyVec) :
    PolyVec × PolyVec :=
  let split : Nat → Nat × Nat := fun a =>
    let r := a % 2 ^ d
    if r ≤ 2 ^ (d - 1) then (a / 2 ^ d, r)
    else (a / 2 ^ d + 1, (Q + r - 2 ^ d) % Q)
  (t.map (fun p => p.map (fun a => (split a).1)),
   t.map (fun p => p.map (fun a => (split a).2)))

/-- Modelled from the spec (§4.3, `decompose_α` with `α = 2γ2`): write
`r = r1·α + r0` with `r0 ∈ (-α/2, α/2]`, and the boundary adjustment
`r - r0 = Q - 1 ⇒ r1 = 0, r0 ← r0 - 1`; returns `(r1, r0)` with `r0`
canonical in `Z_q`. -/
def decompose (α : Nat) (r : Nat) : Nat × Nat :=
  let r0 := r % α
  let r0c : Int := if r0 ≤ α / 2 then (r0 : Int) else (r0 : Int) - (α : Int)
  let rsub : Int := (r : Int) - r0c
  if rsub = (Q : Int) - 1 then
    (0, ((r0c - 1 + Q).toNat) % Q)
  else
    ((rsub / α).toNat, ((r0c + Q).toNat) % Q)

/-- Modelled from the spec (§4.3, `polyvec::highbits`): `r1` of
`decompose` applied to every coefficient. -/
def highbits (α : Nat) (v : PolyVec) : PolyVec :=
  v.map (fun p => p.map (fun a => (decompose α a).1))

/-- Modelled from the spec (§4.3, `polyvec::lowbits`): `r0` of
`decompose` applied to every coefficient. -/
def lowbits (α : Nat) (v : PolyVec) : PolyVec :=
  v.map (fun p => p.map (fun a => (decompose α a).2))

/-- Modelled from the spec (§4.3, `make_hint`): per coefficient,
`1` iff `highbits(r) ≠ highbits(r + z)`. -/
def makeHint (α : Nat) (z r : PolyVec) : PolyVec :=
  (z.zip r).map (fun pq =>
    (pq.1.zip pq.2).map (fun cd =>
      if (decompose α cd.2).1 = (decompose α ((cd.2 + cd.1) % Q)).1 then 0 else 1))

/-- Modelled from the spec (§4.3, `use_hint`): if the hint bit is 0 the
high part of `r`; otherwise the high part incremented or decremented by 1
modulo `(Q-1)/α` according to the sign of `lowbits(r)`. -/
def useHint (α : Nat) (h r : PolyVec) : PolyVec :=
  let m := (Q - 1) / α
  (h.zip r).map (fun pq =>
    (pq.1.zip pq.2).map (fun cd =>
      let r1 := (decompose α cd.2).1
      let r0 := (decompose α cd.2).2
      if cd.1 = 0 then r1
      else if 0 < r0 ∧ r0 ≤ (Q - 1) / 2 then (r1 + 1) % m
      else (r1 + m - 1) % m))

/-- Little-endian bits of `c`, exactly `w` of them. -/
def bitsLE (w c : Nat) : List Nat :=
  (List.range w).map (fun i => c / 2 ^ i % 2)

/-- Reassemble a little-endian bit list into a number. -/
def fromBitsLE (bits : List Nat) : Nat :=
  (bits.zip (List.range bits.length)).foldl
    (fun acc bi => acc + bi.1 * 2 ^ bi.2) 0

/-- Fuelled worker for `chunks`. -/
def chunksAux (n : Nat) : Nat → List Nat → List (List Nat)
  | 0, _ => []
  | _ + 1, [] => []
  | fuel + 1, l => l.take n :: chunksAux n fuel (l.drop n)

/-- Group a list into chunks of `n` (the last chunk may be shorter);
`n = 0` gives the empty list. -/
def chunks (n : Nat) (l : List Nat) : List (List Nat) :=
  if n = 0 then [] else chunksAux n l.length l

/-- Modelled from the spec (§4.4, `polyvec::encode`): each coefficient,
already in `[0, 2^w)`, contributes `w` little-endian bits; the
concatenated bit stream is packed into bytes, 8 bits per byte, low bit
first, the last byte zero-padded. -/
def encode (w : Nat) (v : PolyVec) : List Nat :=
  let bits := v.foldr (fun p acc => p.foldr (fun c acc2 => bitsLE w c ++ acc2) acc) []
  (chunks 8 bits).map fromBitsLE

/-- Modelled from the spec (§4.4, `polyvec::decode` for `n` polynomials of
`N` coefficients of width `w`): unpack the little-endian bit stream into
`n · N` coefficients of `w` bits each. -/
def decode (n N w : Nat) (bytes : List Nat) : PolyVec :=
  let bits := bytes.foldr (fun b acc => bitsLE 8 b ++ acc) []
  let coeffs := (chunks w (bits.take (n * N * w))).map fromBitsLE
  (chunks N coeffs).take n

/-- Within-polynomial indices of the coefficients equal to 1, ascending. -/
def onesPositions (p : Poly) : List Nat :=
  (List.range p.length).filter (fun j => p.getD j 0 == 1)

/-- Modelled from the spec (§4.4, `bit_packing::encode_hint_bits`): the
first `ω` bytes list the 1-positions of all hint polynomials in order,
zero-padded; the following bytes give, for each polynomial, the cumulative
count of 1-positions through it. -/
def encodeHintBits (ω : Nat) (h : PolyVec) : List Nat :=
  let pos := h.foldr (fun p acc => onesPositions p ++ acc) []
  let counts := h.map (fun p => (onesPositions p).length)
  let cums := (List.range h.length).map (fun i => ((counts.take (i + 1)).foldl (· + ·) 0))
  (pos.take ω ++ List.replicate (ω - pos.length) 0) ++ cums

/-- Modelled from the spec (§4.4, `bit_packing::decode_hint_bits`): read
the `ω` position bytes and `k` cumulative-count bytes; fail (`none`) if a
cumulative count exceeds `ω`, the counts are not well-formed
(non-decreasing, so that each polynomial's position range exists),
positions within a polynomial are not strictly increasing, or a trailing
byte in the position area past the final count is nonzero.  On success the
hint vector of `k` polynomials of `n` 0/1 coefficients is rebuilt. -/
def decodeHintBits (ω k n : Nat) (bytes : List Nat) : Option PolyVec :=
  let pos := bytes.take ω
  let cums := (bytes.drop ω).take k
  let lastCum := cums.getLastD 0
  let segs := (List.range k).map (fun i =>
    (pos.take (cums.getD i 0)).drop (if i = 0 then 0 else cums.getD (i - 1) 0))
  let okCums := cums.all (fun c => c ≤ ω) &&
    ((cums.zip (0 :: cums)).all (fun p => p.2 ≤ p.1))
  let okIncr := segs.all (fun s => ((s.zip (s.drop 1)).all (fun p => p.1 < p.2)))
  let okTrail := (pos.drop lastCum).all (fun b => b == 0)
  if okCums && okIncr && okTrail then
    some (segs.map (fun s => (List.range n).map (fun j => if j ∈ s then 1 else 0)))
  else none

/-- Value of `ntt::N`: polynomials have 256 coefficients. -/
def N : Nat := 256

/-- The external collaborators of `dilithium.hpp`: the SHAKE hashes
(out of scope of the spec, given only by their streaming interface) and
the seed expanders and NTT pair whose implementations are not among the
sources.  Every theorem below is universally quantified over this record,
so it holds for any conforming instantiation. -/
structure Ext where
  /-- Modelled from the spec: `SHAKE256(input, outLen)` as one function
  (absorb/finalize/squeeze collapsed); implementation external. -/
  shake256 : List Nat → Nat → List Nat
  /-- Modelled from the spec (§4.5): `sampling::expand_a k l ρ`, the
  `k × l` matrix in NTT form, row-major; implementation not in sources. -/
  expandA : Nat → Nat → List Nat → PolyVec
  /-- Modelled from the spec (§4.5): `sampling::expand_s η count startNonce ρ'`;
  implementation not in sources. -/
  expandS : Nat → Nat → Nat → List Nat → PolyVec
  /-- Modelled from the spec (§4.5): `sampling::expand_mask γ1 l ρ' κ`;
  implementation not in sources. -/
  expandMask : Nat → Nat → List Nat → Nat → PolyVec
  /-- Modelled from the spec (§4.5): `sampling::sample_in_ball τ seed`;
  implementation not in sources. -/
  sampleInBall : Nat → List Nat → Poly
  /-- Modelled from the spec (§4.2): forward NTT of one polynomial;
  implementation not in sources. -/
  ntt : Poly → Poly
  /-- Modelled from the spec (§4.2): inverse NTT of one polynomial;
  implementation not in sources. -/
  intt : Poly → Poly

/-- The parameter tuple `(k, l, d, η, γ1, γ2, τ, β, ω)` of §3. -/
structure Params where
  k : Nat
  l : Nat
  d : Nat
  η : Nat
  γ1 : Nat
  γ2 : Nat
  τ : Nat
  β : Nat
  ω : Nat

/-- Embedding of `dilithium::keygen` (dilithium.hpp lines 24–119): splits
`SHAKE256(seed, 128)` into `ρ ‖ ρ' ‖ K`, expands `A`, `s1`, `s2`,
computes `t = intt(A · ntt(s1)) + s2`, splits `t` with `power2round`, and
serializes `pk = ρ ‖ pack(t1)` and
`sk = ρ ‖ K ‖ tr ‖ pack(η−s1) ‖ pack(η−s2) ‖ pack(2^(d−1)−t0)`.
Source lines 103–111 (an attempted XOR of `s1`/`s2` with a random mask
string) reference symbols defined nowhere in the repository and do not
compile; they are omitted here and recorded as a source defect. -/
def keygen (E : Ext) (P : Params) (seed : List Nat) : List Nat × List Nat :=
  let seedHash := E.shake256 seed 128
  let ρ := seedHash.take 32
  let ρ' := (seedHash.drop 32).take 64
  let K := (seedHash.drop 96).take 32
  let A := E.expandA P.k P.l ρ
  let s1 := E.expandS P.η P.l 0 ρ'
  let s2 := E.expandS P.η P.k P.l ρ'
  let s1h := s1.map E.ntt
  let t := addVec ((matMul P.k P.l A s1h).map E.intt) s2
  let t1t0 := power2round P.d t
  let t1bw := bitWidth Q - P.d
  let pk := ρ ++ encode t1bw t1t0.1
  let tr := E.shake256 pk 32
  let ebw := bitWidth (2 * P.η)
  let s1u := subFromX P.η s1
  let s2u := subFromX P.η s2
  let t0u := subFromX (2 ^ (P.d - 1)) t1t0.2
  let sk := ρ ++ K ++ tr ++ encode ebw s1u ++ encode ebw s2u ++ encode P.d t0u
  (pk, sk)

/-- The rejection-loop counter update of `sign` (dilithium.hpp line 312):
`kappa` is a `uint16_t` and `kappa += static_cast<uint16_t>(l)` wraps
modulo `2^16`. -/
def stepKappa (l κ : Nat) : Nat := (κ + l) % 65536

/-- Everything one iteration of `sign`'s rejection loop produces: the
challenge digest, the candidate `z`, the low part `r0`, the vector
`c·t0`, the hint vector, the acceptance flag and the updated counter. -/
structure IterOut where
  hashOut : List Nat
  z : PolyVec
  r0 : PolyVec
  ct0 : PolyVec
  h : PolyVec
  accepted : Bool
  kappa : Nat

/-- One iteration of `sign`'s rejection loop (dilithium.hpp lines
232–313): sample `y`, compute `w = intt(A·ntt(y))`, `w1 = highbits(w)`,
`c̃ = SHAKE256(μ ‖ pack(w1))`, `c = sample_in_ball(c̃)` in NTT form,
`z = y + intt(c·s1)`, `r0 = lowbits(w − intt(c·s2))`,
`ct0 = intt(c·t0)`, `h = make_hint(−ct0, w − intt(c·s2) + ct0)`, and
combine the four bound checks exactly as the source's flags
`flg0 … flg5` do; `kappa` is advanced unconditionally. -/
def signIter (E : Ext) (P : Params) (A : PolyVec) (μ ρ' : List Nat)
    (s1h s2h t0h : PolyVec) (κ : Nat) : IterOut :=
  let y := E.expandMask P.γ1 P.l ρ' κ
  let yh := y.map E.ntt
  let w := (matMul P.k P.l A yh).map E.intt
  let α := 2 * P.γ2
  let m := (Q - 1) / α
  let w1bw := bitWidth (m - 1)
  let w1 := highbits α w
  let hashIn := μ ++ encode w1bw w1
  let hashOut := E.shake256 hashIn 32
  let c := E.ntt (E.sampleInBall P.τ hashOut)
  let z := addVec y ((mulByPoly c s1h).map E.intt)
  let r1 := addVec w (negVec ((mulByPoly c s2h).map E.intt))
  let r0 := lowbits α r1
  let znorm := infinityNorm z
  let r0norm := infinityNorm r0
  let flg0 := decide (P.γ1 - P.β ≤ znorm)
  let flg1 := decide (P.γ2 - P.β ≤ r0norm)
  let flg2 := flg0 || flg1
  let hasSigned := !flg2
  let ct0 := (mulByPoly c t0h).map E.intt
  let h0 := negVec ct0
  let r1' := addVec ct0 r1
  let h := makeHint α h0 r1'
  let ct0norm := infinityNorm ct0
  let cnt := count1s h
  let flg3 := decide (P.γ2 ≤ ct0norm)
  let flg4 := decide (P.ω < cnt)
  let flg5 := flg3 || flg4
  ⟨hashOut, z, r0, ct0, h, hasSigned && !flg5, stepKappa P.l κ⟩

/-- The fuelled rejection loop of `sign`: iterate `signIter` until a
candidate is accepted (`none` when the fuel runs out; the C++ `while`
loop has no bound). -/
def signLoop (E : Ext) (P : Params) (A : PolyVec) (μ ρ' : List Nat)
    (s1h s2h t0h : PolyVec) : Nat → Nat → Option (List Nat × PolyVec × PolyVec)
  | 0, _ => none
  | fuel + 1, κ =>
      let out := signIter E P A μ ρ' s1h s2h t0h κ
      if out.accepted then some (out.hashOut, out.z, out.h)
      else signLoop E P A μ ρ' s1h s2h t0h fuel out.kappa

/-- Embedding of `dilithium::sign` (dilithium.hpp lines 144–325): split the secret
key, expand `A`, derive `μ = SHAKE256(tr ‖ msg, 64)` and
`ρ' = seed` (randomized) or `SHAKE256(K ‖ μ, 64)` (deterministic), decode
and NTT the secrets, run the rejection loop from `κ = 0`, and serialize
`c̃ ‖ pack(γ1 − z) ‖ encode_hints(h)`. -/
def sign (E : Ext) (P : Params) (randomized : Bool) (seed sk msg : List Nat)
    (fuel : Nat) : Option (List Nat) :=
  let ebw := bitWidth (2 * P.η)
  let s1len := P.l * ebw * 32
  let s2len := P.k * ebw * 32
  let ρ := sk.take 32
  let K := (sk.drop 32).take 32
  let tr := (sk.drop 64).take 32
  let A := E.expandA P.k P.l ρ
  let μ := E.shake256 (tr ++ msg) 64
  let ρ' := if randomized then seed else E.shake256 (K ++ μ) 64
  let s1 := subFromX P.η (decode P.l N ebw ((sk.drop 96).take s1len))
  let s2 := subFromX P.η (decode P.k N ebw ((sk.drop (96 + s1len)).take s2len))
  let t0 := subFromX (2 ^ (P.d - 1)) (decode P.k N P.d (sk.drop (96 + s1len + s2len)))
  let s1h := s1.map E.ntt
  let s2h := s2.map E.ntt
  let t0h := t0.map E.ntt
  match signLoop E P A μ ρ' s1h s2h t0h fuel 0 with
  | none => none
  | some out =>
      let γ1bw := bitWidth P.γ1
      some (out.1 ++ encode γ1bw (subFromX P.γ1 out.2.1) ++ encodeHintBits P.ω out.2.2)

/-- The byte-comparison loop of `verify` (dilithium.hpp lines 428–430):
`flg1 |= bool(sig[i] XOR hash_out[i])` over the paired bytes. -/
def bytesDiffer (a b : List Nat) : Bool :=
  (a.zip b).foldl (fun acc p => acc || (p.1 ^^^ p.2 != 0)) false

/-- Everything `verify` computes on its way to the verdict: the hint
decoding status, the decoded hint vector, `‖z‖∞`, the hint weight, the
recomputed digest, the source's flags `flg0`/`flg1`/`flg2`, and the final
boolean result. -/
structure VerifyOut where
  failed : Bool
  h : PolyVec
  znorm : Nat
  count1 : Nat
  hashOut : List Nat
  flg0 : Bool
  flg1 : Bool
  flg2 : Bool
  result : Bool

/-- Embedding of `dilithium::verify` (dilithium.hpp lines 334–435), with all
intermediate checks exposed: expand `A`, decode `t1`, recompute
`μ`, decode `z` and the hints, compute
`w2 = intt(A·ntt(z) − ntt(c)·ntt(t1·2^d))`, `w1 = use_hint(h, w2)`,
`hash_out = SHAKE256(μ ‖ pack(w1), 32)`, and combine
`flg0 = ‖z‖∞ < γ1−β`, `flg1 = (c̃ ≠ hash_out)`, `flg2 = weight ≤ ω` and
the hint-decoding status into `flg4 = !failed ∧ flg0 ∧ !flg1 ∧ flg2`.
When hint decoding fails the C++ leaves `h` partially written; here `h`
defaults to all-zeros — the verdict is `false` either way. -/
def verifyOut (E : Ext) (P : Params) (pk msg sig : List Nat) : VerifyOut :=
  let t1bw := bitWidth Q - P.d
  let γ1bw := bitWidth P.γ1
  let A := E.expandA P.k P.l (pk.take 32)
  let t1 := decode P.k N t1bw (pk.drop 32)
  let crh := E.shake256 pk 32
  let μ := E.shake256 (crh ++ msg) 64
  let c := E.ntt (E.sampleInBall P.τ (sig.take 32))
  let z := subFromX P.γ1 (decode P.l N γ1bw ((sig.drop 32).take (32 * P.l * γ1bw)))
  let hDec := decodeHintBits P.ω P.k N (sig.drop (32 + 32 * P.l * γ1bw))
  let failed := hDec.isNone
  let h := hDec.getD (List.replicate P.k (List.replicate N 0))
  let znorm := infinityNorm z
  let cnt := count1s h
  let zh := z.map E.ntt
  let w0 := matMul P.k P.l A zh
  let t1s := (shlVec P.d t1).map E.ntt
  let w2 := negVec (mulByPoly c t1s)
  let w2b := (addVec w0 w2).map E.intt
  let α := 2 * P.γ2
  let m := (Q - 1) / α
  let w1bw := bitWidth (m - 1)
  let w1 := useHint α h w2b
  let hashIn := μ ++ encode w1bw w1
  let hashOut := E.shake256 hashIn 32
  let flg0 := decide (znorm < P.γ1 - P.β)
  let flg1 := bytesDiffer (sig.take 32) hashOut
  let flg2 := decide (cnt ≤ P.ω)
  let flg3 := flg0 && !flg1 && flg2
  ⟨failed, h, znorm, cnt, hashOut, flg0, flg1, flg2, !failed && flg3⟩

/-- The boolean verdict of `dilithium::verify`. -/
def verify (E : Ext) (P : Params) (pk msg sig : List Nat) : Bool :=
  (verifyOut E P pk msg sig).result

/-- A trivial instantiation of the external collaborators (SHAKE squeezes
zero bytes of the requested length, the expanders return empty vectors,
the NTT pair is the identity), used to evaluate the embedded operations
on concrete inputs. -/
def extZero : Ext where
  shake256 := fun _ n => List.replicate n 0
  expandA := fun _ _ _ => []
  expandS := fun _ _ _ _ => []
  expandMask := fun _ _ _ _ => []
  sampleInBall := fun _ _ => []
  ntt := id
  intt := id

/-- The mode-2 parameter tuple `(4, 4, 13, 2, 2^17, (Q−1)/88, 39, 78, 80)`. -/
def mode2 : Params := ⟨4, 4, 13, 2, 2 ^ 17, (Q - 1) / 88, 39, 78, 80⟩

/-- A deliberately tiny parameter tuple, used only to evaluate the
structural theorems (which hold for every tuple) on small inputs. -/
def tinyParams : Params := ⟨1, 1, 1, 1, 1, 1, 1, 1, 1⟩

/-- Folding `||` over a list is the seed or-ed with `List.any`. -/
theorem foldl_or_any {α : Type} (f : α → Bool) :
    ∀ (l : List α) (b : Bool), l.foldl (fun acc x => acc || f x) b = (b || l.any f) := by
  intro l
  induction l with
  | nil => intro b; simp
  | cons x xs ih => intro b; simp [List.any_cons, ih, Bool.or_assoc]

/-- The byte-comparison loop of `verify` reports "no difference" exactly
when the two byte strings (of equal length) are equal. -/
theorem bytesDiffer_eq_false_iff :
    ∀ {a b : List Nat}, a.length = b.length → (bytesDiffer a b = false ↔ a = b) := by
  intro a
  induction a with
  | nil =>
      intro b h
      cases b with
      | nil => simp [bytesDiffer]
      | cons y ys => simp at h
  | cons x xs ih =>
      intro b h
      cases b with
      | nil => simp at h
      | cons y ys =>
          have hlen : xs.length = ys.length := by simpa using h
          have hxs := ih hlen
          simp only [bytesDiffer, List.zip_cons_cons, List.foldl_cons, foldl_or_any,
            Bool.false_or] at *
          simp only [Bool.or_eq_false_iff, bne_eq_false_iff_eq]
          rw [Nat.xor_eq_zero]
          constructor
          · rintro ⟨h1, h2⟩
            rw [h1, hxs.mp h2]
          · intro hcons
            have h1 : x = y := by injection hcons
            have h2 : xs = ys := by injection hcons
            exact ⟨h1, hxs.mpr h2⟩

/-- Closed form of the iterated `uint16_t` counter update of the
rejection loop: after `i` iterations `κ = (i·l) mod 2^16`. -/
theorem stepKappa_iterate (l : Nat) : ∀ i : Nat, (stepKappa l)^[i] 0 = (i * l) % 65536 := by
  intro i
  induction i with
  | zero => simp
  | succ n ih =>
      rw [Function.iterate_succ', Function.comp_apply, ih, stepKappa,
        Nat.mod_add_mod, Nat.succ_mul]

/-- C3: `verify` returns true if and only if hint decoding succeeded, the
infinity norm of the decoded `z` is strictly below `γ1 − β`, the combined
Hamming weight of the decoded hints is at most `ω`, and the recomputed
digest `SHAKE256(μ ‖ pack(w1', w1_bw), 32)` equals the `c̃` field (the
first 32 bytes) of the signature; any single failure yields false. -/
theorem verify_accept_iff (E : Ext) (P : Params) (pk msg sig : List Nat)
    (hlen : ∀ x n, (E.shake256 x n).length = n) (hsig : 32 ≤ sig.length) :
    verify E P pk msg sig = true ↔
      (verifyOut E P pk msg sig).failed = false ∧
      (verifyOut E P pk msg sig).znorm < P.γ1 - P.β ∧
      (verifyOut E P pk msg sig).count1 ≤ P.ω ∧
      sig.take 32 = (verifyOut E P pk msg sig).hashOut := by
  have hres : verify E P pk msg sig =
      (!(verifyOut E P pk msg sig).failed &&
        (decide ((verifyOut E P pk msg sig).znorm < P.γ1 - P.β) &&
          !(bytesDiffer (sig.take 32) ((verifyOut E P pk msg sig).hashOut)) &&
          decide ((verifyOut E P pk msg sig).count1 ≤ P.ω))) := rfl
  have hlens : (sig.take 32).length = ((verifyOut E P pk msg sig).hashOut).length := by
    have h1 : ((verifyOut E P pk msg sig).hashOut).length = 32 := hlen _ 32
    rw [h1, List.length_take]
    omega
  have hbd := bytesDiffer_eq_false_iff hlens
  rw [hres]
  simp only [Bool.and_eq_true, Bool.not_eq_true', decide_eq_true_eq]
  rw [hbd]
  tauto

/-- Evaluation of `verify_accept_iff` at a concrete instantiation. -/
theorem verify_accept_iff_eval :
    verify extZero mode2 [] [] (List.replicate 33 0) = true ↔
      (verifyOut extZero mode2 [] [] (List.replicate 33 0)).failed = false ∧
      (verifyOut extZero mode2 [] [] (List.replicate 33 0)).znorm < mode2.γ1 - mode2.β ∧
      (verifyOut extZero mode2 [] [] (List.replicate 33 0)).count1 ≤ mode2.ω ∧
      (List.replicate 33 0).take 32 =
        (verifyOut extZero mode2 [] [] (List.replicate 33 0)).hashOut :=
  verify_accept_iff extZero mode2 [] [] (List.replicate 33 0)
    (fun _ n => List.length_replicate n 0) (by simp)

/-- C4: an iteration of `sign`'s rejection loop is accepted if and only
if `‖z‖∞ < γ1 − β`, `‖r0‖∞ < γ2 − β`, `‖c·t0‖∞ < γ2` and the combined
Hamming weight of the hint vector is at most `ω`; violating any of the
four bounds rejects the iteration. -/
theorem sign_iter_accept_iff (E : Ext) (P : Params) (A : PolyVec) (μ ρ' : List Nat)
    (s1h s2h t0h : PolyVec) (κ : Nat) :
    (signIter E P A μ ρ' s1h s2h t0h κ).accepted = true ↔
      infinityNorm (signIter E P A μ ρ' s1h s2h t0h κ).z < P.γ1 - P.β ∧
      infinityNorm (signIter E P A μ ρ' s1h s2h t0h κ).r0 < P.γ2 - P.β ∧
      infinityNorm (signIter E P A μ ρ' s1h s2h t0h κ).ct0 < P.γ2 ∧
      count1s (signIter E P A μ ρ' s1h s2h t0h κ).h ≤ P.ω := by
  have hacc : (signIter E P A μ ρ' s1h s2h t0h κ).accepted =
      (!(decide (P.γ1 - P.β ≤ infinityNorm (signIter E P A μ ρ' s1h s2h t0h κ).z) ||
         decide (P.γ2 - P.β ≤ infinityNorm (signIter E P A μ ρ' s1h s2h t0h κ).r0)) &&
       !(decide (P.γ2 ≤ infinityNorm (signIter E P A μ ρ' s1h s2h t0h κ).ct0) ||
         decide (P.ω < count1s (signIter E P A μ ρ' s1h s2h t0h κ).h))) := rfl
  rw [hacc]
  simp only [Bool.and_eq_true, Bool.not_eq_true', Bool.or_eq_false_iff,
    decide_eq_false_iff_not, Nat.not_le, Nat.not_lt]
  tauto

/-- C5: in deterministic mode the optional 64-byte seed is never read, so
two calls of `sign` on the same secret key and message — whatever seeds
are supplied — produce bit-for-bit identical results. -/
theorem sign_deterministic (E : Ext) (P : Params) (seed1 seed2 sk msg : List Nat)
    (fuel : Nat) :
    sign E P false seed1 sk msg fuel = sign E P false seed2 sk msg fuel := rfl

/-- C6 (counterexample): the nonce is NOT `i·l` for every iteration `i`.
Iterating the rejection loop's own counter update (the `kappa` component
of `signIter`, mode-2 parameters so `l = 4`) 16384 times from `κ = 0`
yields nonce `0`, not `16384·4 = 65536`: the `uint16_t` counter wraps. -/
theorem sign_kappa_not_linear :
    (fun κ => (signIter extZero mode2 [] [] [] [] [] [] κ).kappa)^[16384] 0 ≠ 16384 * 4 := by
  have h : (fun κ => (signIter extZero mode2 [] [] [] [] [] [] κ).kappa) = stepKappa 4 := rfl
  rw [h, stepKappa_iterate]
  decide

/-- C6 (amended): on every iteration of the rejection loop — accepted or
rejected — the counter advances by exactly `l` modulo `2^16` (it is a
`uint16_t`), so iteration `i` uses nonce `(i·l) mod 2^16`. -/
theorem sign_kappa_step (E : Ext) (P : Params) (A : PolyVec) (μ ρ' : List Nat)
    (s1h s2h t0h : PolyVec) (κ : Nat) :
    (signIter E P A μ ρ' s1h s2h t0h κ).kappa = (κ + P.l) % 65536 := rfl

/-- C7: the verification path has a single boolean outcome: whenever the
hint decoding failed or any of the three coefficient checks failed, the
result is the same unmarked `false`, with no other error channel (the
verdict is the total boolean function `verify`). -/
theorem verify_failure_collapses (E : Ext) (P : Params) (pk msg sig : List Nat)
    (h : (verifyOut E P pk msg sig).failed = true ∨
         (verifyOut E P pk msg sig).flg0 = false ∨
         (verifyOut E P pk msg sig).flg1 = true ∨
         (verifyOut E P pk msg sig).flg2 = false) :
    verify E P pk msg sig = false := by
  have hres : verify E P pk msg sig =
      (!(verifyOut E P pk msg sig).failed &&
        ((verifyOut E P pk msg sig).flg0 && !(verifyOut E P pk msg sig).flg1 &&
          (verifyOut E P pk msg sig).flg2)) := rfl
  rw [hres]
  rcases h with h | h | h | h <;> rw [h] <;> simp

/-- Evaluation of `verify_failure_collapses` on a signature whose hint
area is malformed (a nonzero trailing position byte), showing the
collapsed `false`. -/
theorem verify_failure_collapses_eval :
    verify extZero tinyParams [] [] (List.replicate 64 0 ++ [1]) = false :=
  verify_failure_collapses extZero tinyParams [] [] (List.replicate 64 0 ++ [1])
    (Or.inl (by decide))

/-- C8: the public key and the secret key produced by one `keygen` call
begin with the same 32 bytes: the `ρ` prefix of `SHAKE256(seed, 128)`. -/
theorem keygen_same_rho (E : Ext) (P : Params) (seed : List Nat)
    (hlen : ∀ x n, (E.shake256 x n).length = n) :
    (keygen E P seed).1.take 32 = (E.shake256 seed 128).take 32 ∧
    (keygen E P seed).2.take 32 = (E.shake256 seed 128).take 32 := by
  have hρ : ((E.shake256 seed 128).take 32).length = 32 := by
    rw [List.length_take, hlen]
    omega
  have h32 : 32 ≤ ((E.shake256 seed 128).take 32).length := le_of_eq hρ.symm
  have htk : ((E.shake256 seed 128).take 32).take 32 = (E.shake256 seed 128).take 32 :=
    List.take_of_length_le (le_of_eq hρ)
  constructor
  · show (((E.shake256 seed 128).take 32) ++ _).take 32 = _
    rw [List.take_append_of_le_length h32, htk]
  · show ((((((((E.shake256 seed 128).take 32) ++ _) ++ _) ++ _) ++ _) ++ _).take 32) = _
    rw [List.take_append_of_le_length (by simp only [List.length_append]; omega),
      List.take_append_of_le_length (by simp only [List.length_append]; omega),
      List.take_append_of_le_length (by simp only [List.length_append]; omega),
      List.take_append_of_le_length (by simp only [List.length_append]; omega),
      List.take_append_of_le_length h32, htk]

/-- Evaluation of `keygen_same_rho` at a concrete instantiation. -/
theorem keygen_same_rho_eval :
    (keygen extZero mode2 (List.replicate 32 0)).1.take 32 =
      (extZero.shake256 (List.replicate 32 0) 128).take 32 ∧
    (keygen extZero mode2 (List.replicate 32 0)).2.take 32 =
      (extZero.shake256 (List.replicate 32 0) 128).take 32 :=
  keygen_same_rho extZero mode2 (List.replicate 32 0)
    (fun _ n => List.length_replicate n 0)

/-- C9: neither `sign` nor `verify` constrains the message length — the
message is consumed only through the SHAKE absorption that produces `μ`,
so both are (total) functions of that hash value, and the empty message
is as valid an input as any other. -/
theorem msg_absorbed_only (E : Ext) (P : Params) (r : Bool)
    (seed sk pk sig : List Nat) (fuel : Nat) (msg1 msg2 : List Nat)
    (hs : E.shake256 ((sk.drop 64).take 32 ++ msg1) 64 =
          E.shake256 ((sk.drop 64).take 32 ++ msg2) 64)
    (hv : E.shake256 (E.shake256 pk 32 ++ msg1) 64 =
          E.shake256 (E.shake256 pk 32 ++ msg2) 64) :
    sign E P r seed sk msg1 fuel = sign E P r seed sk msg2 fuel ∧
    verify E P pk msg1 sig = verify E P pk msg2 sig := by
  constructor
  · simp only [sign]
    rw [hs]
  · simp only [verify, verifyOut]
    rw [hv]

/-- Evaluation of `msg_absorbed_only`: the empty message is processed
exactly like any message with the same `μ`. -/
theorem msg_absorbed_only_eval :
    sign extZero mode2 false [] (List.replicate 96 0) [] 1 =
      sign extZero mode2 false [] (List.replicate 96 0) [1] 1 ∧
    verify extZero mode2 [] [] (List.replicate 33 0) =
      verify extZero mode2 [] [1] (List.replicate 33 0) :=
  msg_absorbed_only extZero mode2 false [] (List.replicate 96 0) []
    (List.replicate 33 0) 1 [] [1] rfl rfl

/-- C10: the rejection-loop counter is a `uint16_t`, so iterating its
update `i` times from `κ = 0` gives the nonce `(i·l) mod 2^16`, and the
nonce sequence is periodic (the value used at iteration `i + 2^16`
equals the one used at iteration `i`, so a loop running long enough
reuses masking nonces). -/
theorem sign_nonce_mod_2_16 (l i : Nat) :
    (stepKappa l)^[i] 0 = (i * l) % 65536 ∧
    (stepKappa l)^[i + 65536] 0 = (stepKappa l)^[i] 0 := by
  refine ⟨stepKappa_iterate l i, ?_⟩
  rw [stepKappa_iterate, stepKappa_iterate, Nat.add_mul]
  conv_lhs => rw [Nat.mul_comm 65536 l]
  rw [Nat.add_mul_mod_self_right]

end Dilithium
